import Mathlib

/-!
Shallow embedding of the MQTT client runtime core (topic matcher,
subscription registry / dispatcher, topic-alias cache, middleware chain,
and packet-identifier correlation service) together with theorems checking
the natural-language specification against the code.

Conventions of the embedding:
* Go strings become Lean `String`; `strings.Split(s, "/")` is embedded as
  a character-level split with identical semantics on every input.
* Go `nil` pointers become `Option.none`; a Go run-time panic (nil
  dereference, slice bounds) is modelled as an explicit error value so that
  partiality is visible in the types.
* Go maps become association lists (the alias cache) or the list of keys
  in use (the packet-identifier table, whose values are irrelevant to the
  claims); `uint16` values become `Nat`, with the bounds the Go type
  enforces stated where they matter.
-/

namespace PahoRouter

/-- Character-level split on `/`, agreeing with Go's
`strings.Split(s, "/")` on every input (empties preserved; the empty
string gives the one-element list `[[]]`).  The `[]` branch of the inner
match is unreachable (`strSplitSlash` never returns the empty list) and
is present only to keep the function total. -/
def strSplitSlash : List Char → List (List Char)
  | [] => [[]]
  | c :: cs =>
    match strSplitSlash cs with
    | [] => [[]]
    | piece :: rest =>
      if c = '/' then [] :: piece :: rest else (c :: piece) :: rest

/-- Go's `strings.Split(s, "/")` as a function on `String`. -/
def goSplit (s : String) : List String :=
  (strSplitSlash s.data).map String.mk

/-- Go's `strings.HasPrefix(s, "$share")`. -/
def hasShareMarker (s : String) : Bool :=
  List.isPrefixOf "$share".data s.data

/-- `topicSplit` from `router.go`: split a topic on `/`; the empty string
yields the empty level sequence. -/
def topicSplit (topic : String) : List String :=
  if topic.data.length = 0 then [] else goSplit topic

/-- `routeSplit` from `router.go`: split a filter on `/`, discarding the
first two levels of a shared-subscription filter.  The Go code takes the
slice `strings.Split(route, "/")[2:]`, which panics when the split has
fewer than two elements (a filter such as `"$share"`); the panic is
modelled as `none`. -/
def routeSplit (route : String) : Option (List String) :=
  if route.data.length = 0 then some []
  else if hasShareMarker route then
    let parts := goSplit route
    if parts.length < 2 then none else some (parts.drop 2)
  else some (goSplit route)

/-- `matchDeep` from `router.go`: level-by-level comparison of a filter
level sequence against a topic level sequence. -/
def matchDeep : List String → List String → Bool
  | [], topic => topic.isEmpty
  | r :: _, [] => r == "#"
  | r :: rs, t :: ts =>
    if r == "#" then true
    else if r == "+" || r == t then matchDeep rs ts
    else false

/-- `routeIncludesTopic` from `router.go`. -/
def routeIncludesTopic (route topic : String) : Option Bool :=
  (routeSplit route).map (fun rs => matchDeep rs (topicSplit topic))

/-- `match` from `router.go` (`match` is a Lean keyword, hence the name):
exact string equality short-circuits before the level-wise comparison. -/
def mqttMatch (route topic : String) : Option Bool :=
  if route = topic then some true
  else routeIncludesTopic route topic

end PahoRouter

namespace PahoMIDs

/-- State of the `MIDs` correlation service from `message_ids.go`: the
set of identifiers currently associated with a waiter (the domain of the
Go map `index map[uint16]*CPContext`, kept as a duplicate-free list) and
the `lastIdUsed` counter (a `uint16`, so always at most 65535 in Go). -/
structure MIDs where
  index : List Nat
  lastIdUsed : Nat
deriving DecidableEq

/-- The loop of `MIDs.getNextId`:
`for i := startFrom; i < 65535; i++ { if free return i }; return 0`.
`fuel` is the remaining iteration count `65535 - i`, making the
recursion structural. -/
def getNextIdLoop (index : List Nat) : Nat → Nat → Nat
  | _, 0 => 0
  | i, fuel + 1 => if i ∈ index then getNextIdLoop index (i + 1) fuel else i

/-- `MIDs.getNextId` from `message_ids.go`.  The guard
`if startFrom > 65535 { startFrom = 1 }` is dead code in Go (a `uint16`
never exceeds 65535) but is transcribed faithfully.  Note the loop bound:
it scans `[startFrom, 65534]` only — identifier 65535 is never probed and
the scan does not wrap around below `startFrom`. -/
def getNextId (index : List Nat) (startFrom : Nat) : Nat :=
  let s := if startFrom > 65535 then 1 else startFrom
  getNextIdLoop index s (65535 - s)

/-- `MIDs.Request` from `message_ids.go`: advance `lastIdUsed` (wrapping
65535 to 1), take it when free, otherwise scan forward with `getNextId`;
`none` models the `ErrNoMoreIDs` return, on which the in-use set is left
unchanged (but `lastIdUsed` keeps its incremented value). -/
def Request (m : MIDs) : Option Nat × MIDs :=
  let last := if m.lastIdUsed < 65535 then m.lastIdUsed + 1 else 1
  if last ∉ m.index then
    (some last, ⟨last :: m.index, last⟩)
  else
    let j := getNextId m.index last
    if j > 0 then (some j, ⟨j :: m.index, j⟩)
    else (none, ⟨m.index, last⟩)

/-- `MIDs.Free` from `message_ids.go`: drop the association. -/
def Free (m : MIDs) (i : Nat) : MIDs :=
  ⟨m.index.erase i, m.lastIdUsed⟩

/-- A run of `n` sequential `Request` calls with no intervening `Free`:
the list of issued identifiers and the final state, or `none` if any
call fails. -/
def RequestSeq (m : MIDs) : Nat → Option (List Nat × MIDs)
  | 0 => some ([], m)
  | n + 1 =>
    match Request m with
    | (none, _) => none
    | (some i, m') =>
      match RequestSeq m' n with
      | none => none
      | some (ids, m'') => some (i :: ids, m'')


end PahoMIDs

namespace PahoRouter

/-- The properties of an inbound publish, restricted to the field the
router reads: `TopicAlias *uint16` (`nil` = `none`). -/
structure PubProperties where
  topicAlias : Option Nat
deriving DecidableEq

/-- An inbound `packets.Publish`, restricted to the fields the router
reads: the topic name and the properties pointer (`nil` = `none`). -/
structure PacketPublish where
  topic : String
  properties : Option PubProperties
deriving DecidableEq

/-- A fault aborting a `Route` call: the unconditional dereference of a
nil `Properties` pointer, or the slice panic of `routeSplit` on a
degenerate `$share` filter with fewer than two levels. -/
inductive RouteFault
  | nilDeref
  | slicePanic
deriving DecidableEq

instance {ε α : Type} [DecidableEq ε] [DecidableEq α] :
    DecidableEq (Except ε α) := fun a b =>
  match a, b with
  | .error e1, .error e2 =>
    if h : e1 = e2 then .isTrue (by rw [h])
    else .isFalse (fun hc => h (Except.error.inj hc))
  | .error _, .ok _ => .isFalse (fun hc => Except.noConfusion hc)
  | .ok _, .error _ => .isFalse (fun hc => Except.noConfusion hc)
  | .ok a1, .ok a2 =>
    if h : a1 = a2 then .isTrue (by rw [h])
    else .isFalse (fun hc => h (Except.ok.inj hc))

/-- Lookup in the alias cache `map[uint16]string`, kept as an
association list. -/
def aliasLookup : List (Nat × String) → Nat → Option String
  | [], _ => none
  | (k, v) :: rest, a => if k = a then some v else aliasLookup rest a

/-- Store (overwrite) in the alias cache. -/
def aliasStore : List (Nat × String) → Nat → String → List (Nat × String)
  | [], a, t => [(a, t)]
  | (k, v) :: rest, a, t =>
    if k = a then (a, t) :: rest else (k, v) :: aliasStore rest a t

/-- The topic-alias resolution step shared by `StandardRouter.Route`,
`StandardContextRouter.Route` and the routercontext `Router.Route`
(lines 107-121 of `router.go`): when the message carries an alias and a
non-empty topic, store/overwrite `alias -> topic`; the effective topic
is then the cached value for the alias, or empty when absent; without an
alias the effective topic is just the message topic. -/
def resolveAlias (aliases : List (Nat × String)) (ta : Option Nat)
    (topic : String) : List (Nat × String) × String :=
  match ta with
  | some a =>
    let aliases1 := if topic ≠ "" then aliasStore aliases a topic else aliases
    match aliasLookup aliases1 a with
    | some t => (aliases1, t)
    | none => (aliases1, "")
  | none => (aliases, topic)

/-- The filter scan of `Route`: walk the subscription table and collect,
in table order, every handler under every filter matching the effective
topic (the code's `handlerCalled` flag is set exactly when this list is
nonempty).  A `routeSplit` panic inside `match` aborts the whole call. -/
def calledHandlers {H : Type} : List (String × List H) → String →
    Except RouteFault (List H)
  | [], _ => .ok []
  | (f, hs) :: rest, topic =>
    match mqttMatch f topic with
    | none => .error .slicePanic
    | some b =>
      match calledHandlers rest topic with
      | .error e => .error e
      | .ok l => .ok (if b then hs ++ l else l)

/-- Lines 123-136 of `Route`: the matched registered handlers run; when
none ran and a default handler is set, the default runs instead. -/
def dispatchInvocations {H : Type} (called : List H) (dflt : Option H) :
    List H :=
  if called.isEmpty then dflt.toList else called

/-- `StandardRouter` state: the subscription registry (filter to
handlers in registration order; handlers are opaque identifiers), the
optional default handler, and the topic-alias cache. -/
structure StandardRouter where
  subscriptions : List (String × List Nat)
  defaultHandler : Option Nat
  aliases : List (Nat × String)
deriving DecidableEq

/-- `StandardRouter.Route`: dereference `pb.Properties` (a nil pointer
faults before anything else), resolve the effective topic through the
alias cache, scan the registry, and run the default handler exactly when
no registered handler ran.  Returns the updated state and the handler
invocations in order. -/
def route (r : StandardRouter) (pb : PacketPublish) :
    Except RouteFault (StandardRouter × List Nat) :=
  match pb.properties with
  | none => .error .nilDeref
  | some props =>
    let p := resolveAlias r.aliases props.topicAlias pb.topic
    match calledHandlers r.subscriptions p.2 with
    | .error e => .error e
    | .ok called =>
      .ok (⟨r.subscriptions, r.defaultHandler, p.1⟩,
        dispatchInvocations called r.defaultHandler)

/-- `StandardContextRouter` state (equally the routercontext `Router`):
handlers are abstract invocables of type `H`, middleware are handler
transforms. -/
structure ContextRouter (H : Type) where
  subscriptions : List (String × List H)
  defaultHandler : Option H
  middlewares : List (H → H)
  aliases : List (Nat × String)

/-- `wrapHandler` from `router.go` lines 334-342 (the routercontext copy
is identical): with no middleware registered the handler is returned
unchanged; otherwise the loop runs `i` from the last middleware index
down to 0, updating `h = ms[i](h)`. -/
def wrapHandler {H : Type} (ms : List (H → H)) (h : H) : H :=
  if ms.isEmpty then h
  else ms.reverse.foldl (fun acc mw => mw acc) h

/-- `StandardContextRouter.Route` (and routercontext `Router.Route`):
the same routing as `StandardRouter.Route`, with every invoked handler —
the default included — wrapped by the middleware chain at invocation
time. -/
def contextRoute {H : Type} (r : ContextRouter H) (pb : PacketPublish) :
    Except RouteFault (ContextRouter H × List H) :=
  match pb.properties with
  | none => .error .nilDeref
  | some props =>
    let p := resolveAlias r.aliases props.topicAlias pb.topic
    match calledHandlers r.subscriptions p.2 with
    | .error e => .error e
    | .ok called =>
      .ok (⟨r.subscriptions, r.defaultHandler, r.middlewares, p.1⟩,
        dispatchInvocations (called.map (wrapHandler r.middlewares))
          (r.defaultHandler.map (wrapHandler r.middlewares)))


end PahoRouter

namespace PahoRouter

/-- One step of the observable locking behaviour of
`StandardRouter.Route`: the shared-mode operations `RLock`/`RUnlock`
(the only ones the code performs), the exclusive-mode operations
`Lock`/`Unlock` (which `Route` never performs), and the alias-cache
write `r.aliases[*pb.Properties.TopicAlias] = pb.Topic`. -/
inductive RouteStep
  | rlock
  | runlock
  | lock
  | unlock
  | aliasWrite (a : Nat) (t : String)
deriving DecidableEq

/-- The sequence of lock operations and alias-cache writes a
`StandardRouter.Route` call performs, transcribed from lines 100-137 of
`router.go`: `r.RLock()`, then — when the publish carries an alias and a
non-empty topic — the cache write, then the deferred `r.RUnlock()` (which
also runs when a nil `Properties` panics the call). -/
def routeLockTrace (pb : PacketPublish) : List RouteStep :=
  RouteStep.rlock ::
    (match pb.properties with
     | none => [RouteStep.runlock]
     | some props =>
       (match props.topicAlias with
        | some a =>
          if pb.topic ≠ "" then [RouteStep.aliasWrite a pb.topic] else []
        | none => []) ++ [RouteStep.runlock])

/-- Walk a trace tracking the shared (`s`) and exclusive (`e`) lock
depths: `true` when every alias-cache write happens with the exclusive
lock held. -/
def writesUnderExclusive : List RouteStep → Nat → Nat → Bool
  | [], _, _ => true
  | RouteStep.rlock :: rest, s, e => writesUnderExclusive rest (s + 1) e
  | RouteStep.runlock :: rest, s, e => writesUnderExclusive rest (s - 1) e
  | RouteStep.lock :: rest, s, e => writesUnderExclusive rest s (e + 1)
  | RouteStep.unlock :: rest, s, e => writesUnderExclusive rest s (e - 1)
  | RouteStep.aliasWrite _ _ :: rest, s, e =>
    decide (0 < e) && writesUnderExclusive rest s e

/-- Walk a trace tracking the shared (`s`) and exclusive (`e`) lock
depths: `true` when every alias-cache write happens while the shared
lock is held and no exclusive lock is. -/
def writesUnderSharedOnly : List RouteStep → Nat → Nat → Bool
  | [], _, _ => true
  | RouteStep.rlock :: rest, s, e => writesUnderSharedOnly rest (s + 1) e
  | RouteStep.runlock :: rest, s, e => writesUnderSharedOnly rest (s - 1) e
  | RouteStep.lock :: rest, s, e => writesUnderSharedOnly rest s (e + 1)
  | RouteStep.unlock :: rest, s, e => writesUnderSharedOnly rest s (e - 1)
  | RouteStep.aliasWrite _ _ :: rest, s, e =>
    decide (0 < s ∧ e = 0) && writesUnderSharedOnly rest s e

/-- Does the trace contain an alias-cache write at all? -/
def hasAliasWrite : List RouteStep → Bool
  | [] => false
  | RouteStep.aliasWrite _ _ :: _ => true
  | _ :: rest => hasAliasWrite rest

end PahoRouter

open PahoRouter

/-- C5: the matcher is the level-by-level algorithm on `/`-split level
sequences: empty filter/topic strings split to the empty sequence; both
sequences exhausted is a match; filter exhausted with topic remaining is
no match; topic exhausted with filter remaining matches exactly when the
filter level is `#`; a `#` filter level absorbs the remaining topic; a
`+` level, or (when the level is not `#`) a literally equal level,
recurses on both remainders; anything else is no match.  The two concrete
spec examples evaluate as stated. -/
theorem matchDeep_level_algorithm :
    topicSplit "" = [] ∧ routeSplit "" = some [] ∧
    matchDeep [] [] = true ∧
    (∀ (t : String) (ts : List String), matchDeep [] (t :: ts) = false) ∧
    (∀ (f : String) (fs : List String), matchDeep (f :: fs) [] = (f == "#")) ∧
    (∀ (fs : List String) (t : String) (ts : List String),
      matchDeep ("#" :: fs) (t :: ts) = true) ∧
    (∀ (f : String) (fs : List String) (t : String) (ts : List String),
      f ≠ "#" → (f = "+" ∨ f = t) →
      matchDeep (f :: fs) (t :: ts) = matchDeep fs ts) ∧
    (∀ (f : String) (fs : List String) (t : String) (ts : List String),
      f ≠ "#" → f ≠ "+" → f ≠ t → matchDeep (f :: fs) (t :: ts) = false) ∧
    mqttMatch "sensors/+/status" "sensors/temp/status" = some true ∧
    mqttMatch "sensors/+/status" "sensors/temp/zone/status" = some false := by
  refine ⟨by decide, by decide, rfl, fun t ts => rfl, fun f fs => rfl,
    fun fs t ts => by simp [matchDeep], ?_, ?_, by decide, by decide⟩
  · rintro f fs t ts hne (rfl | rfl) <;> simp [matchDeep, hne]
  · intro f fs t ts h1 h2 h3
    simp [matchDeep, h1, h2, h3]

/-- C5 (witness): the level-step conjuncts of `matchDeep_level_algorithm`
instantiated at concrete levels. -/
theorem matchDeep_level_algorithm_witness :
    matchDeep ["+", "b"] ["x", "b"] = matchDeep ["b"] ["b"] ∧
    matchDeep ["a", "b"] ["a", "c"] = matchDeep ["b"] ["c"] ∧
    matchDeep ["a"] ["z"] = false :=
  ⟨matchDeep_level_algorithm.2.2.2.2.2.2.1 "+" ["b"] "x" ["b"]
      (by decide) (Or.inl rfl),
   matchDeep_level_algorithm.2.2.2.2.2.2.1 "a" ["b"] "a" ["c"]
      (by decide) (Or.inr rfl),
   matchDeep_level_algorithm.2.2.2.2.2.2.2.1 "a" [] "z" []
      (by decide) (by decide) (by decide)⟩

/-- C2 (counterexample): the claimed identity
`Matches("$share/group/a/b", t) = Matches("a/b", t)` fails at the topic
`t = "$share/group/a/b"`: the string-equality fast path of `match` fires
on the unstripped filter, so the left side matches while the right side
does not. -/
theorem share_fastpath_counterexample :
    mqttMatch "$share/group/a/b" "$share/group/a/b" = some true ∧
    mqttMatch "a/b" "$share/group/a/b" = some false := by
  exact ⟨by decide, by decide⟩

/-- C2 (amended): for every topic other than the literal string
`"$share/group/a/b"`, the matcher gives the same verdict for the
shared-subscription filter and its stripped form. -/
theorem share_strip_match_eq (t : String) (h : t ≠ "$share/group/a/b") :
    mqttMatch "$share/group/a/b" t = mqttMatch "a/b" t := by
  by_cases h1 : t = "a/b"
  · subst h1; decide
  · have e1 : routeSplit "$share/group/a/b" = some ["a", "b"] := by decide
    have e2 : routeSplit "a/b" = some ["a", "b"] := by decide
    unfold mqttMatch routeIncludesTopic
    rw [if_neg (Ne.symm h), if_neg (Ne.symm h1), e1, e2]

/-- C2 (witness): the amended identity evaluated at the topic `"a/x"`. -/
theorem share_strip_match_eq_witness :
    mqttMatch "$share/group/a/b" "a/x" = mqttMatch "a/b" "a/x" :=
  share_strip_match_eq "a/x" (by decide)

/-- C3 (counterexample): the multi-level wildcard filter `"#"` matches the
empty topic (`matchDeep ["#"] [] = ("#" == "#") = true`), refuting the
claim that no registered filter matches the empty topic. -/
theorem match_empty_topic_counterexample :
    mqttMatch "#" "" = some true ∧ mqttMatch "#" "" ≠ some false := by
  exact ⟨by decide, by decide⟩

/-- C3 (amended): a filter matches the empty topic exactly when it is the
empty string, or its level sequence after share-stripping is empty, or
that sequence begins with `#`; every other filter rejects the empty
topic, so a dispatch with an empty effective topic reaches only handlers
registered under such filters (and otherwise only the default handler). -/
theorem match_empty_topic_iff (f : String) :
    mqttMatch f "" = some true ↔
      ∃ rs, routeSplit f = some rs ∧ (rs = [] ∨ rs.head? = some "#") := by
  by_cases h0 : f = ""
  · subst h0
    constructor
    · intro _; exact ⟨[], by decide, Or.inl rfl⟩
    · intro _; decide
  · unfold mqttMatch routeIncludesTopic
    rw [if_neg h0]
    have ht : topicSplit "" = [] := by decide
    rw [ht]
    cases hr : routeSplit f with
    | none => simp
    | some rs =>
      cases rs with
      | nil => simp [matchDeep]
      | cons r rest =>
        simp only [Option.map_some', Option.some.injEq, List.head?_cons]
        constructor
        · intro hb
          refine ⟨r :: rest, rfl, Or.inr ?_⟩
          have : (r == "#") = true := hb
          simp only [beq_iff_eq] at this
          simp [this]
        · rintro ⟨rs', hrs', h⟩
          cases hrs'
          rcases h with h | h
          · cases h
          · simp only [List.head?_cons, Option.some.injEq] at h
            show (r == "#") = true
            simp [h]

/-- C3 (witness): the reverse direction of `match_empty_topic_iff`
applied at the concrete filter `"#"`. -/
theorem match_empty_topic_iff_witness :
    mqttMatch "#" "" = some true :=
  (match_empty_topic_iff "#").mpr ⟨["#"], by decide, Or.inr (by decide)⟩

namespace PahoMIDs

/-- A positive result of the `getNextIdLoop` scan is a free identifier in
`[i, i + fuel)`. -/
theorem getNextIdLoop_pos_spec (index : List Nat) :
    ∀ (fuel i j : Nat), getNextIdLoop index i fuel = j → 0 < j →
      j ∉ index ∧ i ≤ j ∧ j < i + fuel := by
  intro fuel
  induction fuel with
  | zero => intro i j h hj; rw [getNextIdLoop] at h; omega
  | succ fuel ih =>
    intro i j h hj
    rw [getNextIdLoop] at h
    by_cases hm : i ∈ index
    · rw [if_pos hm] at h
      obtain ⟨h1, h2, h3⟩ := ih (i + 1) j h hj
      exact ⟨h1, by omega, by omega⟩
    · rw [if_neg hm] at h
      subst h
      exact ⟨hm, le_refl i, by omega⟩

/-- A positive result of `getNextId` is a free identifier in
`[startFrom, 65534]` (for `startFrom ≤ 65535`). -/
theorem getNextId_pos_spec (index : List Nat) (startFrom j : Nat)
    (hs : startFrom ≤ 65535) (h : getNextId index startFrom = j) (hj : 0 < j) :
    j ∉ index ∧ startFrom ≤ j ∧ j ≤ 65534 := by
  unfold getNextId at h
  rw [if_neg (by omega)] at h
  obtain ⟨h1, h2, h3⟩ := getNextIdLoop_pos_spec index (65535 - startFrom) startFrom j h hj
  exact ⟨h1, h2, by omega⟩

/-- A successful `Request` issues an identifier in `[1, 65535]` that was
free before the call, and adds exactly it to the in-use set. -/
theorem Request_ok_spec (m : MIDs) (i : Nat) (m' : MIDs)
    (h : Request m = (some i, m')) :
    1 ≤ i ∧ i ≤ 65535 ∧ i ∉ m.index ∧ m'.index = i :: m.index := by
  simp only [Request] at h
  set last := if m.lastIdUsed < 65535 then m.lastIdUsed + 1 else 1 with hlastdef
  have hl1 : 1 ≤ last := by rw [hlastdef]; split <;> omega
  have hl2 : last ≤ 65535 := by rw [hlastdef]; split <;> omega
  by_cases hmem : last ∉ m.index
  · rw [if_pos hmem] at h
    injection h with h1 h2
    injection h1 with h1
    subst h1
    subst h2
    exact ⟨hl1, hl2, hmem, rfl⟩
  · rw [if_neg hmem] at h
    by_cases hj : getNextId m.index last > 0
    · rw [if_pos hj] at h
      injection h with h1 h2
      injection h1 with h1
      subst h1
      subst h2
      have hspec := getNextId_pos_spec m.index last _ hl2 rfl hj
      exact ⟨by omega, by omega, hspec.1, rfl⟩
    · rw [if_neg hj] at h
      injection h with h1 h2
      exact absurd h1 (by simp)

/-- Every successful run of sequential `Request` calls issues
pairwise-distinct identifiers that were free in the initial state, and
the in-use set grows by exactly the issued identifiers. -/
theorem RequestSeq_spec :
    ∀ (n : Nat) (m : MIDs) (ids : List Nat) (m' : MIDs),
      RequestSeq m n = some (ids, m') →
      ids.Nodup ∧ (∀ i ∈ ids, 1 ≤ i ∧ i ∉ m.index) ∧
        (∀ k, k ∈ m'.index ↔ k ∈ ids ∨ k ∈ m.index) := by
  intro n
  induction n with
  | zero =>
    intro m ids m' h
    simp only [RequestSeq] at h
    injection h with h
    injection h with h1 h2
    subst h1
    subst h2
    simp
  | succ n ih =>
    intro m ids m' h
    simp only [RequestSeq] at h
    rcases hreq : Request m with ⟨oi, m1⟩
    rw [hreq] at h
    cases oi with
    | none => exact absurd h (by simp)
    | some i =>
      dsimp only at h
      rcases hseq : RequestSeq m1 n with _ | ⟨ids', m''⟩
      · rw [hseq] at h
        exact absurd h (by simp)
      · rw [hseq] at h
        simp only [Option.some.injEq] at h
        injection h with h1 h2
        subst h1
        subst h2
        obtain ⟨hd, hmem, hidx⟩ := ih _ _ _ hseq
        obtain ⟨hi1, hi2, hi3, hi4⟩ := Request_ok_spec m i m1 hreq
        refine ⟨?_, ?_, ?_⟩
        · rw [List.nodup_cons]
          refine ⟨fun hin => ?_, hd⟩
          have hni := (hmem i hin).2
          rw [hi4] at hni
          exact hni (List.mem_cons_self i m.index)
        · intro k hk
          rcases List.mem_cons.mp hk with rfl | hk
          · exact ⟨hi1, hi3⟩
          · obtain ⟨hk1, hk2⟩ := hmem k hk
            refine ⟨hk1, fun hkm => ?_⟩
            rw [hi4] at hk2
            exact hk2 (List.mem_cons_of_mem i hkm)
        · intro k
          rw [hidx k, hi4]
          simp only [List.mem_cons]
          tauto

end PahoMIDs

/-- C1 (code bug evidence): in the state where identifier 65535 is the
only one in use and `lastIdUsed = 65534`, `Request` fails with the
`ErrNoMoreIDs` exhaustion error even though identifiers 1..65534 (all
but one of the space) are free: the incremented `lastIdUsed` is 65535,
which is occupied, and `getNextId`'s scan `for i := 65535; i < 65535`
runs zero iterations and returns 0 — the scan neither wraps around nor
ever probes slot 65535.  The in-use set is unchanged on the failure;
only `lastIdUsed` advances. -/
theorem request_premature_exhaustion :
    PahoMIDs.Request ⟨[65535], 65534⟩ = (none, ⟨[65535], 65535⟩) ∧
    (1 : Nat) ∉ (PahoMIDs.MIDs.mk [65535] 65534).index ∧
    (PahoMIDs.MIDs.mk [65535] 65534).index.length = 1 := by
  exact ⟨by decide, by decide, by decide⟩

/-- C9: every successful `Request` returns a nonzero identifier at most
65535 that was not in use immediately before the call; consequently `n`
sequential successful `Request` calls with no intervening `Free` return
pairwise-distinct nonzero identifiers none of which was initially in
use, and the final in-use set holds exactly the issued identifiers plus
the initial ones. -/
theorem request_ids_fresh_and_distinct :
    (∀ (m : PahoMIDs.MIDs) (i : Nat) (m' : PahoMIDs.MIDs),
      PahoMIDs.Request m = (some i, m') →
      i ≠ 0 ∧ i ≤ 65535 ∧ i ∉ m.index ∧ m'.index = i :: m.index) ∧
    (∀ (m : PahoMIDs.MIDs) (n : Nat) (ids : List Nat) (m' : PahoMIDs.MIDs),
      PahoMIDs.RequestSeq m n = some (ids, m') →
      ids.Nodup ∧ (∀ i ∈ ids, i ≠ 0 ∧ i ∉ m.index) ∧
        (∀ k, k ∈ m'.index ↔ k ∈ ids ∨ k ∈ m.index)) := by
  constructor
  · intro m i m' h
    obtain ⟨h1, h2, h3, h4⟩ := PahoMIDs.Request_ok_spec m i m' h
    exact ⟨by omega, h2, h3, h4⟩
  · intro m n ids m' h
    obtain ⟨hd, hmem, hidx⟩ := PahoMIDs.RequestSeq_spec n m ids m' h
    exact ⟨hd, fun i hi => ⟨by have := (hmem i hi).1; omega, (hmem i hi).2⟩,
      hidx⟩

/-- C9 (witness): three sequential requests from the empty state issue
the distinct identifiers 1, 2, 3. -/
theorem request_ids_fresh_and_distinct_witness :
    List.Nodup [1, 2, 3] ∧
    (∀ i ∈ [1, 2, 3], i ≠ 0 ∧ i ∉ (PahoMIDs.MIDs.mk [] 0).index) ∧
    (∀ k, k ∈ (PahoMIDs.MIDs.mk [3, 2, 1] 3).index ↔
      k ∈ [1, 2, 3] ∨ k ∈ (PahoMIDs.MIDs.mk [] 0).index) :=
  request_ids_fresh_and_distinct.2 ⟨[], 0⟩ 3 [1, 2, 3] ⟨[3, 2, 1], 3⟩
    (by decide)

namespace PahoRouter

/-- The filter scan can only panic out of `routeSplit`, never with the
nil-dereference fault. -/
theorem calledHandlers_ne_nilDeref {H : Type} :
    ∀ (subs : List (String × List H)) (topic : String),
      calledHandlers subs topic ≠ Except.error RouteFault.nilDeref := by
  intro subs topic
  induction subs with
  | nil => simp [calledHandlers]
  | cons p rest ih =>
    obtain ⟨f, hs⟩ := p
    simp only [calledHandlers]
    cases mqttMatch f topic with
    | none => simp
    | some b =>
      cases hrec : calledHandlers rest topic with
      | error e =>
        rw [hrec] at ih
        simpa using ih
      | ok l => simp

/-- Storing a mapping makes the stored topic the cached value. -/
theorem aliasLookup_aliasStore :
    ∀ (al : List (Nat × String)) (a : Nat) (t : String),
      aliasLookup (aliasStore al a t) a = some t := by
  intro al a t
  induction al with
  | nil => simp [aliasStore, aliasLookup]
  | cons p rest ih =>
    obtain ⟨k, v⟩ := p
    by_cases hk : k = a
    · subst hk
      simp [aliasStore, aliasLookup]
    · simp [aliasStore, aliasLookup, hk, ih]

end PahoRouter

/-- C10: `Route` is total only under the precondition that the publish's
`Properties` pointer is non-nil: it dereferences `pb.Properties` to look
for a topic alias before any matching, so a nil `Properties` faults with
the nil dereference for every publish — one carrying an ordinary
non-empty topic included — while under `Properties ≠ nil` that fault is
unreachable.  This holds for the standard and the context-aware router
alike. -/
theorem route_nil_properties_fault :
    (∀ (r : StandardRouter) (pb : PacketPublish), pb.properties = none →
      route r pb = .error .nilDeref) ∧
    (∀ (r : StandardRouter) (pb : PacketPublish), pb.properties ≠ none →
      route r pb ≠ .error .nilDeref) ∧
    (∀ (H : Type) (r : ContextRouter H) (pb : PacketPublish),
      pb.properties = none → contextRoute r pb = .error .nilDeref) ∧
    (∀ (H : Type) (r : ContextRouter H) (pb : PacketPublish),
      pb.properties ≠ none → contextRoute r pb ≠ .error .nilDeref) := by
  refine ⟨?_, ?_, ?_, ?_⟩
  · intro r pb h
    simp [route, h]
  · intro r pb h
    obtain ⟨props, hp⟩ := Option.ne_none_iff_exists'.mp h
    simp only [route, hp]
    cases hc : calledHandlers r.subscriptions
        (resolveAlias r.aliases props.topicAlias pb.topic).2 with
    | error e =>
      have hne := calledHandlers_ne_nilDeref r.subscriptions
        (resolveAlias r.aliases props.topicAlias pb.topic).2
      rw [hc] at hne
      simpa using hne
    | ok called => simp
  · intro H r pb h
    simp [contextRoute, h]
  · intro H r pb h
    obtain ⟨props, hp⟩ := Option.ne_none_iff_exists'.mp h
    simp only [contextRoute, hp]
    cases hc : calledHandlers r.subscriptions
        (resolveAlias r.aliases props.topicAlias pb.topic).2 with
    | error e =>
      have hne := calledHandlers_ne_nilDeref r.subscriptions
        (resolveAlias r.aliases props.topicAlias pb.topic).2
      rw [hc] at hne
      simpa using hne
    | ok called => simp

/-- C10 (witness): a publish with a non-empty topic but nil properties
faults, and the same publish with (alias-free) properties does not. -/
theorem route_nil_properties_fault_witness :
    route ⟨[], none, []⟩ ⟨"a/b", none⟩ = .error .nilDeref ∧
    route ⟨[], none, []⟩ ⟨"a/b", some ⟨none⟩⟩ ≠ .error .nilDeref :=
  ⟨route_nil_properties_fault.1 ⟨[], none, []⟩ ⟨"a/b", none⟩ rfl,
   route_nil_properties_fault.2.1 ⟨[], none, []⟩ ⟨"a/b", some ⟨none⟩⟩
     (by decide)⟩

/-- C6: in every dispatch the default handler is invoked exactly when it
is set and zero registered-handler invocations occurred (no filter
matched, or every matching filter had an empty handler list); when any
registered handler ran, the default does not run; and in the
context-aware router every invocation — the default's included — is the
handler wrapped by the full middleware chain. -/
theorem default_fires_iff_no_handler :
    (∀ (r : StandardRouter) (pb : PacketPublish) (r' : StandardRouter)
        (inv : List Nat),
      route r pb = .ok (r', inv) →
      ∃ props called, pb.properties = some props ∧
        calledHandlers r.subscriptions
          (resolveAlias r.aliases props.topicAlias pb.topic).2 = .ok called ∧
        inv = dispatchInvocations called r.defaultHandler ∧
        (called = [] → inv = r.defaultHandler.toList) ∧
        (called ≠ [] → inv = called)) ∧
    (∀ (H : Type) (r : ContextRouter H) (pb : PacketPublish)
        (r' : ContextRouter H) (inv : List H),
      contextRoute r pb = .ok (r', inv) →
      ∃ props called, pb.properties = some props ∧
        calledHandlers r.subscriptions
          (resolveAlias r.aliases props.topicAlias pb.topic).2 = .ok called ∧
        inv = dispatchInvocations (called.map (wrapHandler r.middlewares))
          (r.defaultHandler.map (wrapHandler r.middlewares)) ∧
        (called = [] →
          inv = (r.defaultHandler.map (wrapHandler r.middlewares)).toList) ∧
        (called ≠ [] → inv = called.map (wrapHandler r.middlewares))) := by
  constructor
  · intro r pb r' inv h
    cases hp : pb.properties with
    | none => rw [route, hp] at h; exact absurd h (by simp)
    | some props =>
      rw [route, hp] at h
      dsimp only at h
      cases hc : calledHandlers r.subscriptions
          (resolveAlias r.aliases props.topicAlias pb.topic).2 with
      | error e => rw [hc] at h; exact absurd h (by simp)
      | ok called =>
        rw [hc] at h
        simp only [Except.ok.injEq] at h
        injection h with h1 h2
        subst h2
        refine ⟨props, called, rfl, hc, rfl, ?_, ?_⟩
        · intro hcall
          subst hcall
          simp [dispatchInvocations]
        · intro hcall
          cases called with
          | nil => exact absurd rfl hcall
          | cons a l => simp [dispatchInvocations]
  · intro H r pb r' inv h
    cases hp : pb.properties with
    | none => rw [contextRoute, hp] at h; exact absurd h (by simp)
    | some props =>
      rw [contextRoute, hp] at h
      dsimp only at h
      cases hc : calledHandlers r.subscriptions
          (resolveAlias r.aliases props.topicAlias pb.topic).2 with
      | error e => rw [hc] at h; exact absurd h (by simp)
      | ok called =>
        rw [hc] at h
        simp only [Except.ok.injEq] at h
        injection h with h1 h2
        subst h2
        refine ⟨props, called, rfl, hc, rfl, ?_, ?_⟩
        · intro hcall
          subst hcall
          simp [dispatchInvocations]
        · intro hcall
          cases called with
          | nil => exact absurd rfl hcall
          | cons a l => simp [dispatchInvocations]

/-- C6 (witness): routing a non-matching topic through a registry with
one handler under `"a"` and default handler `9` yields exactly the
default invocation. -/
theorem default_fires_iff_no_handler_witness :
    ∃ props called,
      (PacketPublish.mk "b" (some ⟨none⟩)).properties = some props ∧
      calledHandlers (StandardRouter.mk [("a", [1])] (some 9) []).subscriptions
        (resolveAlias (StandardRouter.mk [("a", [1])] (some 9) []).aliases
          props.topicAlias (PacketPublish.mk "b" (some ⟨none⟩)).topic).2 =
        .ok called ∧
      [9] = dispatchInvocations called
        (StandardRouter.mk [("a", [1])] (some 9) []).defaultHandler ∧
      (called = [] →
        [9] = (StandardRouter.mk [("a", [1])] (some 9) []).defaultHandler.toList) ∧
      (called ≠ [] → [9] = called) :=
  default_fires_iff_no_handler.1 ⟨[("a", [1])], some 9, []⟩
    ⟨"b", some ⟨none⟩⟩ ⟨[("a", [1])], some 9, []⟩ [9] (by decide)

/-- C8: when an inbound message carries an alias and a non-empty topic,
the mapping alias → topic is stored (overwriting any previous binding)
and the effective topic is the cached value, i.e. the topic itself; with
an empty topic the cache is untouched and the effective topic is the
cached value, or empty when no mapping exists; hence a message with
alias 5 and topic `"x/y"` followed by one with alias 5 and empty topic
both dispatch with effective topic `"x/y"`, and the handler registered
on `"x/y"` fires for both. -/
theorem alias_resolution :
    (∀ (al : List (Nat × String)) (a : Nat) (t : String), t ≠ "" →
      resolveAlias al (some a) t = (aliasStore al a t, t)) ∧
    (∀ (al : List (Nat × String)) (a : Nat),
      resolveAlias al (some a) "" = (al, (aliasLookup al a).getD "")) ∧
    route ⟨[("x/y", [7])], none, []⟩ ⟨"x/y", some ⟨some 5⟩⟩ =
      .ok (⟨[("x/y", [7])], none, [(5, "x/y")]⟩, [7]) ∧
    route ⟨[("x/y", [7])], none, [(5, "x/y")]⟩ ⟨"", some ⟨some 5⟩⟩ =
      .ok (⟨[("x/y", [7])], none, [(5, "x/y")]⟩, [7]) := by
  refine ⟨?_, ?_, by decide, by decide⟩
  · intro al a t ht
    rw [resolveAlias]
    rw [if_pos ht]
    rw [aliasLookup_aliasStore]
  · intro al a
    rw [resolveAlias]
    rw [if_neg (by simp)]
    cases h : aliasLookup al a with
    | none => simp
    | some t => simp

/-- C8 (witness): the store-and-resolve step of `alias_resolution`
applied at the empty cache, alias 5 and topic `"x/y"`. -/
theorem alias_resolution_witness :
    resolveAlias [] (some 5) "x/y" = (aliasStore [] 5 "x/y", "x/y") :=
  alias_resolution.1 [] 5 "x/y" (by decide)

/-- C7: with middlewares `m1, …, mn` in registration order the wrapped
handler equals `m1 (m2 (… mn h …))` — the fold runs from the last
registered inward so the first registered is outermost — with zero
middleware the handler is returned unwrapped, and a dispatch through
trace-emitting middlewares `m1` then `m2` around handler `h` observes
the order m1-before, m2-before, h, m2-after, m1-after. -/
theorem wrapHandler_composition :
    (∀ (H : Type) (ms : List (H → H)) (h : H),
      wrapHandler ms h = ms.foldr (fun mw acc => mw acc) h) ∧
    (∀ (H : Type) (h : H), wrapHandler ([] : List (H → H)) h = h) ∧
    wrapHandler
      [fun tr => "m1-before" :: tr ++ ["m1-after"],
       fun tr => "m2-before" :: tr ++ ["m2-after"]] ["h"] =
      ["m1-before", "m2-before", "h", "m2-after", "m1-after"] := by
  refine ⟨?_, fun H h => rfl, by decide⟩
  · intro H ms h
    cases ms with
    | nil => rfl
    | cons mw rest =>
      show (mw :: rest).reverse.foldl (fun acc mw => mw acc) h = _
      rw [List.foldl_reverse]

/-- C4 (code bug evidence): on a publish carrying alias 5 and topic
`"x/y"`, `StandardRouter.Route` produces the lock trace
`[RLock, aliases-write, RUnlock]`: the alias-cache mutation is performed
while holding only the registry's shared/read-mode lock, and no
exclusive lock is ever acquired — so the claim that the write happens
only under an exclusive lock fails, and two concurrent dispatches
storing the same alias race. -/
theorem alias_write_under_shared_lock :
    routeLockTrace ⟨"x/y", some ⟨some 5⟩⟩ =
      [RouteStep.rlock, RouteStep.aliasWrite 5 "x/y", RouteStep.runlock] ∧
    hasAliasWrite (routeLockTrace ⟨"x/y", some ⟨some 5⟩⟩) = true ∧
    writesUnderExclusive (routeLockTrace ⟨"x/y", some ⟨some 5⟩⟩) 0 0 = false ∧
    writesUnderSharedOnly (routeLockTrace ⟨"x/y", some ⟨some 5⟩⟩) 0 0 = true := by
  exact ⟨by decide, by decide, by decide, by decide⟩

